import Mathlib

/-
  Verification of the CRAQ chain-replicated key-value store
  (craq_server.py, craq_cluster.py).

  The chain is modelled as a list of replica states ordered head first,
  tail last.  Each handler of CraqServer is translated into a function on
  this list: a request handled at replica i operates on the suffix
  starting at i, since all intra-chain traffic flows toward the tail.
  A raised exception inside a handler is modelled as a `none` result;
  per the spec (section 7), the request boundary of the transport turns an
  uncaught handler exception into an error response, so an upstream
  replica that performed a send always receives *some* response, whose
  status the SET path never checks.  Transport failures on a link are an
  oracle (`fails`): entry i tells whether the send over the i-th link of
  the suffix raises.
-/

namespace Craq

/-- A wire response: a JSON object with optional status, val and ver fields. -/
structure Response where
  status : Option String
  val : Option String
  ver : Option Nat
deriving DecidableEq

/-- The response JsonMessage {status: OK}. -/
def okResponse : Response := ⟨some "OK", none, none⟩

/-- The response JsonMessage {status: OK, val: v}. -/
def okVal (v : String) : Response := ⟨some "OK", some v, none⟩

/-- The response JsonMessage {status: Key not found}. -/
def keyNotFound : Response := ⟨some "Key not found", none, none⟩

/-- Lookup in a dirty map, Python d[ver] / ver in d on a dict[int, str]. -/
def dlookup : List (Nat × String) → Nat → Option String
  | [], _ => none
  | p :: rest, v => if p.1 = v then some p.2 else dlookup rest v

/-- Python dict assignment d[ver] = val (overwrites any existing binding). -/
def dinsert (l : List (Nat × String)) (ver : Nat) (val : String) : List (Nat × String) :=
  (ver, val) :: l.filter (fun p => p.1 ≠ ver)

/-- Python del d[ver]. -/
def derase (l : List (Nat × String)) (ver : Nat) : List (Nat × String) :=
  l.filter (fun p => p.1 ≠ ver)

/-- Python max(d.keys()); 0 on an empty dict (the code only calls it on
non-empty dicts, whose keys are versions, hence positive). -/
def dmax (l : List (Nat × String)) : Nat :=
  l.foldr (fun p m => max p.1 m) 0

/-- The mutable per-replica state of CraqServer: `store` is the clean map
key -> (version, value); `temp_store` is the dirty map key -> {version -> value}.
A key absent from the Python temp_store dict and a key mapped to an empty
dict are indistinguishable to every operation the code performs, so both
are the empty list here. -/
structure ReplicaState where
  store : String → Option (Nat × String)
  temp_store : String → List (Nat × String)

/-- A freshly constructed replica: both maps empty. -/
def emptyReplica : ReplicaState := ⟨fun _ => none, fun _ => []⟩

/-- self.store[key] = (ver, val). -/
def storeSet (m : String → Option (Nat × String)) (key : String) (ver : Nat) (val : String) :
    String → Option (Nat × String) :=
  fun k => if k = key then some (ver, val) else m k

/-- Replace the dirty dict held at `key`. -/
def tempSet (m : String → List (Nat × String)) (key : String) (d : List (Nat × String)) :
    String → List (Nat × String) :=
  fun k => if k = key then d else m k

/-- The elif/else shared by both branches of _get: return the clean value
when a clean entry exists, Key not found otherwise. -/
def cleanRead (st : ReplicaState) (key : String) : Response :=
  match st.store key with
  | some (_, v) => okVal v
  | none => keyNotFound

/-- CraqServer._query handled at the first replica of the given suffix:
the tail (next = None) reads the committed version from its clean map,
raising (`none`) when the key is absent; everyone else forwards to next
and relays the answer.  The state component records that no replica is
mutated. -/
def queryT (key : String) : List ReplicaState → List ReplicaState × Option Nat
  | [] => ([], none)
  | [st] => ([st], (st.store key).map Prod.fst)
  | st :: b :: rest =>
    let p := queryT key (b :: rest)
    (st :: p.1, p.2)

/-- CraqServer._get handled at the first replica of the given suffix.
If the dirty map for the key is non-empty, a QUERY is sent toward the
tail; the committed version resolves the dirty/clean arbitration exactly
as in the source (response.get of a missing ver field is None, which is
never a dict key). -/
def getT (key : String) : List ReplicaState → List ReplicaState × Response
  | [] => ([], keyNotFound)
  | st :: rest =>
    if st.temp_store key = [] then
      (st :: rest, cleanRead st key)
    else
      let p := queryT key rest
      match p.2 with
      | some vstar =>
        match dlookup (st.temp_store key) vstar with
        | some dval => (st :: p.1, okVal dval)
        | none => (st :: p.1, cleanRead st key)
      | none => (st :: p.1, cleanRead st key)

/-- Lines 149-159 of CraqServer._set, handled at the first replica of the
suffix with the version already fixed (either assigned by the head or
adopted verbatim from the message): a non-tail replica records the dirty
entry, forwards, and on a returned response promotes the clean entry and
deletes the dirty entry; the tail commits directly into the clean map.
`fails.headD false` tells whether this replica's send to next raises. -/
def setFwd (key val : String) (ver : Nat) : List Bool → List ReplicaState →
    List ReplicaState × Option Response
  | _, [] => ([], none)
  | _, [st] =>
    ([{ st with store := storeSet st.store key ver val }], some okResponse)
  | fails, st :: b :: rest =>
    let st1 : ReplicaState :=
      { st with temp_store := tempSet st.temp_store key (dinsert (st.temp_store key) ver val) }
    if fails.headD false then
      (st1 :: b :: rest, none)
    else
      let rest' := (setFwd key val ver fails.tail (b :: rest)).1
      ({ st1 with
          store := storeSet st1.store key ver val,
          temp_store := tempSet st1.temp_store key (derase (st1.temp_store key) ver) } :: rest',
        some okResponse)

/-- Lines 139-146 of CraqServer._set: the head's current version, taken
from the dirty map when non-empty, else from the clean entry, else 0. -/
def currentVersion (st : ReplicaState) (key : String) : Nat :=
  match st.temp_store key with
  | [] =>
    match st.store key with
    | some (v, _) => v
    | none => 0
  | p :: d => dmax (p :: d)

/-- CraqServer._set handled at the head (prev = None): the head assigns
version currentVersion + 1, ignoring any version already carried by the
message, then proceeds like every non-tail replica. -/
def handleSet (key val : String) (_verIn : Option Nat) (fails : List Bool) :
    List ReplicaState → List ReplicaState × Option Response
  | [] => ([], none)
  | st :: rest => setFwd key val (currentVersion st key + 1) fails (st :: rest)

/-- A decoded request, as produced by the dispatcher's type switch. -/
inductive Request where
  | setReq (key val : String) (ver : Option Nat)
  | getReq (key : String)
  | queryReq (key : String)

/-- CraqServer._process_req dispatched at the head of the given chain
suffix.  GET never raises in the model (its only send is the QUERY, whose
failure already surfaces as a missing ver field); QUERY raises exactly
when the tail lacks the key. -/
def processReq (fails : List Bool) (chain : List ReplicaState) :
    Request → List ReplicaState × Option Response
  | .setReq key val ver => handleSet key val ver fails chain
  | .getReq key =>
    let p := getT key chain
    (p.1, some p.2)
  | .queryReq key =>
    let p := queryT key chain
    (p.1, p.2.map (fun v => ⟨none, none, some v⟩))

/-- The version held by the clean entry, 0 when there is none (the
`clean_version(key) or 0` of the spec). -/
def cleanVer (st : ReplicaState) (key : String) : Nat :=
  match st.store key with
  | some (v, _) => v
  | none => 0

/-- The spec's formula for the head's current version: the maximum over
the key's dirty versions and its clean version (0 when neither exists). -/
def specCurrent (st : ReplicaState) (key : String) : Nat :=
  max (dmax (st.temp_store key)) (cleanVer st key)

/-- The spec's per-replica invariant, decidably: every version in the
key's dirty map is strictly greater than the clean entry's version,
whenever a clean entry exists. -/
def dirtyAboveClean (st : ReplicaState) (key : String) : Bool :=
  (st.temp_store key).all (fun p => (st.store key).all (fun c => decide (c.1 < p.1)))

/-- CraqClient.get's replica choice, the semantics of Python
min(response_times, key=response_times.get): index of the first minimal
element (replacement happens only on a strictly smaller value, so ties go
to the earlier index in iteration order). -/
def argminFirst : List ℚ → Nat
  | [] => 0
  | [_] => 0
  | v :: b :: rest =>
    if (b :: rest).getD (argminFirst (b :: rest)) 0 < v then argminFirst (b :: rest) + 1
    else 0

/-- The EWMA update of CraqClient.get: elapsed * 0.3 + previous * 0.7,
with times as exact rationals. -/
def ewma (sample old : ℚ) : ℚ := sample * (3 / 10) + old * (7 / 10)

/-- CraqClient.__init__: one response-time estimate per replica, all 0. -/
def responseTimes (n : Nat) : List ℚ := List.replicate n 0

/-- CraqClient.get: choose the least-loaded replica, then store the EWMA
of the measured sample into its slot.  Returns the chosen index and the
updated estimates. -/
def clientGet (times : List ℚ) (sample : ℚ) : Nat × List ℚ :=
  let i := argminFirst times
  (i, times.set i (ewma sample (times.getD i 0)))

/-- A fresh two-replica chain, head then tail. -/
def chain2 : List ReplicaState := [emptyReplica, emptyReplica]

/-- After SET k:=a on the two-replica chain with no failure: both clean
entries are (1, a), both dirty maps empty. -/
def chainB : List ReplicaState := (handleSet "k" "a" none [] chain2).1

/-- After a further SET k:=b whose forward over the head's link raised:
the head keeps dirty {2: b} beside clean (1, a); the tail is untouched. -/
def chainC : List ReplicaState := (handleSet "k" "b" none [true] chainB).1

/-- After a further SET k:=c with no failure: the head now has clean
(3, c) and the orphan dirty version 2 below it. -/
def chainD : List ReplicaState := (handleSet "k" "c" none [] chainC).1

/-- A fresh three-replica chain. -/
def chain3 : List ReplicaState := [emptyReplica, emptyReplica, emptyReplica]

/-- SET k:=a on the three-replica chain where the middle replica's send
to the tail raised: the head still receives a response (the middle
replica's boundary turns its exception into one) and, never checking the
status, promotes clean (1, a); the middle keeps dirty {1: a}; the tail
never sees the key. -/
def chainF : List ReplicaState := (handleSet "k" "a" none [false, true] chain3).1

/-- A further SET k:=b whose very first send raised: the head now holds
clean (1, a) and dirty {2: b}, while the tail still lacks the key. -/
def chainG : List ReplicaState := (handleSet "k" "b" none [true] chainF).1

/-- An element looked up in a dirty map right after being written there. -/
theorem dlookup_dinsert_self (l : List (Nat × String)) (ver : Nat) (val : String) :
    dlookup (dinsert l ver val) ver = some val := by
  simp [dinsert, dlookup]

/-- A deleted version is no longer found in a dirty map. -/
theorem dlookup_derase_self (l : List (Nat × String)) (ver : Nat) :
    dlookup (derase l ver) ver = none := by
  induction l with
  | nil => rfl
  | cons p rest ih =>
    by_cases hp : p.1 = ver
    · simpa [derase, List.filter_cons, hp] using ih
    · simpa [derase, List.filter_cons, hp, dlookup] using ih

/-- Every key of a dirty map is bounded by dmax. -/
theorem mem_le_dmax (l : List (Nat × String)) (p : Nat × String) (hp : p ∈ l) :
    p.1 ≤ dmax l := by
  induction l with
  | nil => cases hp
  | cons q rest ih =>
    rcases List.mem_cons.mp hp with h | h
    · subst h; exact le_max_left _ _
    · exact le_trans (ih h) (le_max_right _ _)

/-- Reading the slot a map update just wrote. -/
theorem tempSet_self (m : String → List (Nat × String)) (key : String)
    (d : List (Nat × String)) : tempSet m key d key = d := by
  simp [tempSet]

/-- Reading the slot a clean-map update just wrote. -/
theorem storeSet_self (m : String → Option (Nat × String)) (key : String) (ver : Nat)
    (val : String) : storeSet m key ver val key = some (ver, val) := by
  simp [storeSet]

/-- The last element of a list is a member. -/
theorem getLast?_mem' {α : Type} : ∀ (l : List α) (a : α), l.getLast? = some a → a ∈ l
  | [], _, h => by cases h
  | [b], a, h => by
    simp only [List.getLast?_singleton, Option.some.injEq] at h
    simp [h]
  | b :: c :: rest, a, h => by
    rw [List.getLast?_cons_cons] at h
    exact List.mem_cons_of_mem _ (getLast?_mem' (c :: rest) a h)

/-- Dropping the head of a list with at least two elements keeps the last. -/
theorem getLast?_cons_ne {α : Type} (a : α) (l : List α) (h : l ≠ []) :
    (a :: l).getLast? = l.getLast? := by
  cases l with
  | nil => exact absurd rfl h
  | cons b rest => exact List.getLast?_cons_cons

/-- QUERY mutates no replica. -/
theorem queryT_fst (key : String) : ∀ l : List ReplicaState, (queryT key l).1 = l
  | [] => rfl
  | [_] => rfl
  | st :: b :: rest => by
    simp only [queryT]
    exact congrArg (fun t => st :: t) (queryT_fst key (b :: rest))

/-- The two branch equations of setFwd on a chain of length at least two. -/
theorem setFwd_cons_cons_fail (key val : String) (ver : Nat) (fails : List Bool)
    (st b : ReplicaState) (rest : List ReplicaState) (hf : fails.headD false = true) :
    setFwd key val ver fails (st :: b :: rest)
      = ({ st with temp_store := tempSet st.temp_store key (dinsert (st.temp_store key) ver val) }
          :: b :: rest, none) := by
  simp only [setFwd, if_pos hf]

/-- The success branch of setFwd on a chain of length at least two. -/
theorem setFwd_cons_cons_ok (key val : String) (ver : Nat) (fails : List Bool)
    (st b : ReplicaState) (rest : List ReplicaState) (hf : fails.headD false = false) :
    setFwd key val ver fails (st :: b :: rest)
      = (⟨storeSet st.store key ver val,
          tempSet (tempSet st.temp_store key (dinsert (st.temp_store key) ver val)) key
            (derase (tempSet st.temp_store key (dinsert (st.temp_store key) ver val) key) ver)⟩
          :: (setFwd key val ver fails.tail (b :: rest)).1, some okResponse) := by
  simp only [setFwd, hf, if_neg, Bool.false_eq_true, if_false]

/-- QUERY resolves to the version in the tail's clean map: the committed
version when the tail holds the key, an error (missing ver) otherwise. -/
theorem queryT_snd (key : String) : ∀ l : List ReplicaState, l ≠ [] →
    (queryT key l).2 = (l.getLast?.bind fun st => (st.store key).map Prod.fst)
  | [], h => absurd rfl h
  | [st], _ => by simp [queryT]
  | st :: b :: rest, _ => by
    rw [List.getLast?_cons_cons]
    simpa [queryT] using queryT_snd key (b :: rest) (by simp)

/-- GET mutates no replica. -/
theorem getT_fst (key : String) : ∀ l : List ReplicaState, (getT key l).1 = l
  | [] => rfl
  | st :: rest => by
    by_cases h : st.temp_store key = []
    · simp [getT, h]
    · simp only [getT, if_neg h]
      cases hv : (queryT key rest).2 with
      | none => simp [queryT_fst key rest]
      | some vstar =>
        cases hd : dlookup (st.temp_store key) vstar with
        | none => simp [hd, queryT_fst key rest]
        | some dval => simp [hd, queryT_fst key rest]

/-- C9: implicit frame property — handling a GET or a QUERY at any replica
leaves every replica's clean map and dirty map unchanged; the chain state
returned by both handlers is the input chain. -/
theorem c9_get_query_frame : ∀ (key : String) (l : List ReplicaState),
    (getT key l).1 = l ∧ (queryT key l).1 = l :=
  fun key l => ⟨getT_fst key l, queryT_fst key l⟩

/-- SET returns a chain of the same length. -/
theorem setFwd_length (key val : String) (ver : Nat) :
    ∀ (fails : List Bool) (l : List ReplicaState),
      ((setFwd key val ver fails l).1).length = l.length
  | _, [] => rfl
  | _, [_] => rfl
  | fails, st :: b :: rest => by
    cases hf : fails.headD false
    · rw [setFwd_cons_cons_ok key val ver fails st b rest hf]
      simpa using setFwd_length key val ver fails.tail (b :: rest)
    · rw [setFwd_cons_cons_fail key val ver fails st b rest hf]
      simp

/-- SET leaves a non-empty chain non-empty. -/
theorem setFwd_ne_nil (key val : String) (ver : Nat) (fails : List Bool)
    (st : ReplicaState) (rest : List ReplicaState) :
    (setFwd key val ver fails (st :: rest)).1 ≠ [] := by
  intro hnil
  have hlen := setFwd_length key val ver fails (st :: rest)
  rw [hnil] at hlen
  exact absurd hlen.symm (by simp)

/-- SET never changes the dirty map of the last replica of the suffix. -/
theorem setFwd_last_temp (key val : String) (ver : Nat) :
    ∀ (fails : List Bool) (l : List ReplicaState),
      ((setFwd key val ver fails l).1).getLast?.map ReplicaState.temp_store
        = l.getLast?.map ReplicaState.temp_store
  | _, [] => rfl
  | _, [_] => rfl
  | fails, st :: b :: rest => by
    cases hf : fails.headD false
    · have ih := setFwd_last_temp key val ver fails.tail (b :: rest)
      rw [setFwd_cons_cons_ok key val ver fails st b rest hf,
        getLast?_cons_ne _ _ (setFwd_ne_nil key val ver fails.tail b rest), ih,
        List.getLast?_cons_cons]
    · rw [setFwd_cons_cons_fail key val ver fails st b rest hf]
      simp only [List.getLast?_cons_cons]

/-- C6: the tail commits a SET directly into its clean map, returns OK and
touches no dirty entry; across every request type, the dirty map of the
last replica of the chain is left exactly as it was — so a tail whose
dirty map starts empty keeps it empty forever. -/
theorem c6_tail_dirty_empty :
    (∀ (st : ReplicaState) (key val : String) (ver : Nat) (fails : List Bool),
       setFwd key val ver fails [st]
         = ([⟨storeSet st.store key ver val, st.temp_store⟩], some okResponse)) ∧
    (∀ (fails : List Bool) (chain : List ReplicaState) (r : Request),
       ((processReq fails chain r).1).getLast?.map ReplicaState.temp_store
         = chain.getLast?.map ReplicaState.temp_store) := by
  constructor
  · intro st key val ver fails; rfl
  · intro fails chain r
    cases r with
    | setReq key val ver =>
      cases chain with
      | nil => rfl
      | cons st rest => exact setFwd_last_temp key val _ fails (st :: rest)
    | getReq key => rw [show (processReq fails chain (.getReq key)).1 = (getT key chain).1 from rfl,
        getT_fst]
    | queryReq key => rw [show (processReq fails chain (.queryReq key)).1 = (queryT key chain).1 from rfl,
        queryT_fst]

/-- C2: at a non-tail replica, the clean entry is promoted and the dirty
entry deleted exactly when the forward send returns; when the send raises,
the handler fails (none), the clean map is untouched and the dirty entry
for the assigned version is still present. -/
theorem c2_set_forward_failure (st b : ReplicaState) (rest : List ReplicaState)
    (key val : String) (ver : Nat) (fails : List Bool) :
    (fails.headD false = true →
      (setFwd key val ver fails (st :: b :: rest)).2 = none ∧
      ((setFwd key val ver fails (st :: b :: rest)).1.headD emptyReplica).store = st.store ∧
      dlookup (((setFwd key val ver fails (st :: b :: rest)).1.headD emptyReplica).temp_store key)
        ver = some val) ∧
    (fails.headD false = false →
      (setFwd key val ver fails (st :: b :: rest)).2 = some okResponse ∧
      ((setFwd key val ver fails (st :: b :: rest)).1.headD emptyReplica).store key
        = some (ver, val) ∧
      dlookup (((setFwd key val ver fails (st :: b :: rest)).1.headD emptyReplica).temp_store key)
        ver = none) := by
  constructor
  · intro hf
    rw [setFwd_cons_cons_fail key val ver fails st b rest hf]
    exact ⟨rfl, rfl, by simp [tempSet_self, dlookup_dinsert_self]⟩
  · intro hf
    rw [setFwd_cons_cons_ok key val ver fails st b rest hf]
    refine ⟨rfl, by simp [storeSet_self], ?_⟩
    simp [tempSet_self, dlookup_derase_self]

/-- Witness for C2: on a fresh two-replica chain, a raising forward makes
the handler fail while a returning forward yields OK. -/
theorem c2_witness :
    (setFwd "k" "v" 1 [true] [emptyReplica, emptyReplica]).2 = none ∧
    (setFwd "k" "v" 1 [false] [emptyReplica, emptyReplica]).2 = some okResponse :=
  ⟨((c2_set_forward_failure emptyReplica emptyReplica [] "k" "v" 1 [true]).1 rfl).1,
   ((c2_set_forward_failure emptyReplica emptyReplica [] "k" "v" 1 [false]).2 rfl).1⟩

/-- C1: a GET at a replica whose dirty map for the key is non-empty asks
the tail for the committed version v*; it answers with the dirty value at
v* when present, else with its clean value when present, else with Key
not found. -/
theorem c1_get_dirty_arbitration (st tl : ReplicaState) (rest : List ReplicaState)
    (key : String) (ver : Nat) (cval : String)
    (h1 : st.temp_store key ≠ []) (h2 : rest.getLast? = some tl)
    (h3 : tl.store key = some (ver, cval)) :
    (∀ dval, dlookup (st.temp_store key) ver = some dval →
       (getT key (st :: rest)).2 = okVal dval) ∧
    (dlookup (st.temp_store key) ver = none →
       ∀ c cv, st.store key = some (c, cv) → (getT key (st :: rest)).2 = okVal cv) ∧
    (dlookup (st.temp_store key) ver = none → st.store key = none →
       (getT key (st :: rest)).2 = keyNotFound) := by
  have hrest : rest ≠ [] := by intro h; rw [h] at h2; cases h2
  have hq : (queryT key rest).2 = some ver := by
    rw [queryT_snd key rest hrest, h2]
    simp [h3]
  have hmain : (getT key (st :: rest)).2
      = (match dlookup (st.temp_store key) ver with
         | some dval => okVal dval
         | none => cleanRead st key) := by
    simp only [getT, if_neg h1, hq]
    cases dlookup (st.temp_store key) ver <;> rfl
  refine ⟨?_, ?_, ?_⟩
  · intro dval hd; rw [hmain, hd]
  · intro hd c cv hst; rw [hmain, hd]; simp [cleanRead, hst]
  · intro hd hst; rw [hmain, hd]; simp [cleanRead, hst]

/-- A replica holding clean (1, c) and dirty {2: d} for key k. -/
def replicaW1 : ReplicaState :=
  ⟨fun k => if k = "k" then some (1, "c") else none,
   fun k => if k = "k" then [(2, "d")] else []⟩

/-- A tail holding clean (2, d) for key k. -/
def tailW1 : ReplicaState :=
  ⟨fun k => if k = "k" then some (2, "d") else none, fun _ => []⟩

/-- Witness for C1: the tail's committed version 2 is dirty at the serving
replica, so the dirty value is returned. -/
theorem c1_witness : (getT "k" [replicaW1, tailW1]).2 = okVal "d" :=
  (c1_get_dirty_arbitration replicaW1 tailW1 [tailW1] "k" 2 "d"
    (by decide) (by simp) (by decide)).1 "d" (by decide)

/-- C10: a SET reaching the head with a ver field already present is not
rejected; the head ignores the carried version, overwrites it with its
own assignment currentVersion + 1 and proceeds exactly as for a
version-less client write. -/
theorem c10_head_version_overwrite (key val : String) (w : Nat) (fails : List Bool)
    (chain : List ReplicaState) :
    handleSet key val (some w) fails chain = handleSet key val none fails chain ∧
    (∀ st rest, chain = st :: rest →
      handleSet key val (some w) fails chain
        = setFwd key val (currentVersion st key + 1) fails chain) := by
  constructor
  · cases chain <;> rfl
  · intro st rest hc; subst hc; rfl

/-- Witness for C10 on the fresh two-replica chain with a stray ver 99. -/
theorem c10_witness :
    handleSet "k" "v" (some 99) [] chain2 = handleSet "k" "v" none [] chain2 ∧
    handleSet "k" "v" (some 99) [] chain2 = setFwd "k" "v" 1 [] chain2 :=
  ⟨(c10_head_version_overwrite "k" "v" 99 [] chain2).1,
   (c10_head_version_overwrite "k" "v" 99 [] chain2).2 emptyReplica [emptyReplica] rfl⟩

/-- C5 counterexample: on the reachable chain where the head holds clean
(1, a) and dirty {2: b} while the tail never saw the key, the tail QUERY
fails (no ver) yet the dirty-read path returns the clean value, not Key
not found. -/
theorem c5_counterexample :
    (chainG.headD emptyReplica).temp_store "k" ≠ [] ∧
    (chainG.getLast?).map (fun t => t.store "k") = some none ∧
    (queryT "k" (chainG.drop 1)).2 = none ∧
    (getT "k" chainG).2 = okVal "a" ∧ okVal "a" ≠ keyNotFound := by decide

/-- C5 amended: when the tail holds no clean entry for the key, the QUERY
surfaces as an error (missing ver) to the dirty-read path, which returns
Key not found when the serving replica has no clean entry and the
replica's clean value otherwise. -/
theorem c5_query_missing_amended (st tl : ReplicaState) (rest : List ReplicaState)
    (key : String) (h1 : st.temp_store key ≠ []) (h2 : rest.getLast? = some tl)
    (h3 : tl.store key = none) :
    (queryT key rest).2 = none ∧
    (st.store key = none → (getT key (st :: rest)).2 = keyNotFound) ∧
    (∀ c cv, st.store key = some (c, cv) → (getT key (st :: rest)).2 = okVal cv) := by
  have hrest : rest ≠ [] := by intro h; rw [h] at h2; cases h2
  have hq : (queryT key rest).2 = none := by
    rw [queryT_snd key rest hrest, h2]
    simp [h3]
  have hmain : (getT key (st :: rest)).2 = cleanRead st key := by
    simp only [getT, if_neg h1, hq]
  exact ⟨hq, fun hst => by rw [hmain]; simp [cleanRead, hst],
    fun c cv hst => by rw [hmain]; simp [cleanRead, hst]⟩

/-- A replica with no clean entry and dirty {1: x} for key k. -/
def replicaW2 : ReplicaState :=
  ⟨fun _ => none, fun k => if k = "k" then [(1, "x")] else []⟩

/-- Witness for the amended C5: no clean entry anywhere and a failing tail
QUERY give Key not found. -/
theorem c5_witness : (getT "k" [replicaW2, emptyReplica]).2 = keyNotFound :=
  ((c5_query_missing_amended replicaW2 emptyReplica [emptyReplica] "k"
    (by decide) (by simp) rfl).2.1) rfl

/-- currentVersion agrees with the spec's max-formula whenever no dirty
version sits below the clean version. -/
theorem currentVersion_eq_spec (st : ReplicaState) (key : String)
    (h : ∀ p ∈ st.temp_store key, cleanVer st key ≤ p.1) :
    currentVersion st key = specCurrent st key := by
  cases htemp : st.temp_store key with
  | nil =>
    cases hst : st.store key with
    | none => simp [currentVersion, specCurrent, htemp, dmax, cleanVer, hst]
    | some p =>
      obtain ⟨v, s⟩ := p
      simp [currentVersion, specCurrent, htemp, dmax, cleanVer, hst]
  | cons p d =>
    have hp : cleanVer st key ≤ p.1 := h p (by rw [htemp]; exact List.mem_cons_self _ _)
    have hpd : p.1 ≤ dmax (p :: d) := mem_le_dmax (p :: d) p (List.mem_cons_self _ _)
    simp only [currentVersion, specCurrent, htemp]
    exact (Nat.max_eq_left (le_trans hp hpd)).symm

/-- C3 counterexample: on the reachable head state clean (3, c), dirty
{2: b}, the next SET is assigned version 3 (it lands as clean (3, d)),
while the claim's formula max(dirty, clean) + 1 yields 4. -/
theorem c3_counterexample :
    ((handleSet "k" "d" none [] chainD).1.headD emptyReplica).store "k" = some (3, "d") ∧
    specCurrent (chainD.headD emptyReplica) "k" + 1 = 4 ∧
    specCurrent (chainD.headD emptyReplica) "k" + 1 ≠ 3 := by decide

/-- C3 amended: the head assigns max(dirty) + 1 when the dirty map is
non-empty, else clean + 1, else 1; this equals the claim's
max(dirty ∪ clean-or-0) + 1 whenever no dirty version sits below the
clean version (in particular in every failure-free execution). -/
theorem c3_head_version_amended (st : ReplicaState) (rest : List ReplicaState)
    (key val : String) (verIn : Option Nat) (fails : List Bool)
    (h : ∀ p ∈ st.temp_store key, cleanVer st key ≤ p.1) :
    handleSet key val verIn fails (st :: rest)
      = setFwd key val (specCurrent st key + 1) fails (st :: rest) := by
  have hcv := currentVersion_eq_spec st key h
  simp only [handleSet, hcv]

/-- Witness for the amended C3: clean (1, c) below dirty {2: d} gives
assigned version max(2, 1) + 1 = 3. -/
theorem c3_witness :
    handleSet "k" "v" none [] [replicaW1, tailW1]
      = setFwd "k" "v" 3 [] [replicaW1, tailW1] :=
  c3_head_version_amended replicaW1 [tailW1] "k" "v" none [] (by decide)

/-- A failure-free SET leaves the dirty map for any key empty on every
replica whose dirty map for that key started empty. -/
theorem setFwd_temp_empty (key setKey val : String) (ver : Nat) :
    ∀ l : List ReplicaState, (∀ st ∈ l, st.temp_store key = []) →
      ∀ st' ∈ (setFwd setKey val ver [] l).1, st'.temp_store key = []
  | [], _, st', h' => by simp [setFwd] at h'
  | [st], h, st', h' => by
    simp only [setFwd, List.mem_singleton] at h'
    subst h'
    exact h st (List.mem_singleton.mpr rfl)
  | st :: b :: rest, h, st', h' => by
    rw [setFwd_cons_cons_ok setKey val ver [] st b rest rfl] at h'
    rcases List.mem_cons.mp h' with rfl | hmem
    · show tempSet (tempSet st.temp_store setKey (dinsert (st.temp_store setKey) ver val)) setKey
        (derase (tempSet st.temp_store setKey (dinsert (st.temp_store setKey) ver val) setKey) ver)
        key = []
      by_cases hk : key = setKey
      · subst hk
        have h0 : st.temp_store key = [] := h st (List.mem_cons_self _ _)
        simp [tempSet, h0, dinsert, derase]
      · have h0 : st.temp_store key = [] := h st (List.mem_cons_self _ _)
        simp [tempSet, hk, h0]
    · exact setFwd_temp_empty key setKey val ver (b :: rest)
        (fun t ht => h t (List.mem_cons_of_mem _ ht)) st' (by simpa using hmem)

/-- C4 counterexample: a reachable state satisfying the invariant (head
clean (1, a), dirty {2: b}) on which the next successful SET breaks it,
leaving the orphan dirty version 2 below the new clean version 3. -/
theorem c4_counterexample :
    dirtyAboveClean (chainC.headD emptyReplica) "k" = true ∧
    (handleSet "k" "c" none [] chainC).2 = some okResponse ∧
    dirtyAboveClean ((handleSet "k" "c" none [] chainC).1.headD emptyReplica) "k" = false := by
  decide

/-- C4 amended: every request handled without forward failures preserves
the invariant, provided the key's dirty map is empty on every replica
beforehand (as holds throughout every failure-free execution from the
initial state); the dirty maps stay empty, so every dirty version is
vacuously above the clean one.  A forward failure followed by a later
successful write can instead leave an orphan dirty version at or below
the clean version. -/
theorem c4_invariant_amended (chain : List ReplicaState) (key : String) (r : Request)
    (h : ∀ st ∈ chain, st.temp_store key = []) :
    ∀ st' ∈ (processReq [] chain r).1,
      st'.temp_store key = [] ∧ dirtyAboveClean st' key = true := by
  intro st' hmem
  have hempty : st'.temp_store key = [] := by
    cases r with
    | setReq k' v' verIn =>
      cases chain with
      | nil => simp [processReq, handleSet] at hmem
      | cons st rest =>
        exact setFwd_temp_empty key k' v' (currentVersion st k' + 1) (st :: rest) h st'
          (by simpa [processReq, handleSet] using hmem)
    | getReq k' =>
      have hfr : (processReq [] chain (.getReq k')).1 = chain := by
        simp [processReq, getT_fst]
      rw [hfr] at hmem
      exact h st' hmem
    | queryReq k' =>
      have hfr : (processReq [] chain (.queryReq k')).1 = chain := by
        simp [processReq, queryT_fst]
      rw [hfr] at hmem
      exact h st' hmem
  exact ⟨hempty, by simp [dirtyAboveClean, hempty]⟩

/-- Witness for the amended C4: a SET on the fresh two-replica chain
leaves the head's dirty map empty and the invariant holding. -/
theorem c4_witness :
    ((processReq [] chain2 (.setReq "k" "v" none)).1.headD emptyReplica).temp_store "k" = [] ∧
    dirtyAboveClean
      ((processReq [] chain2 (.setReq "k" "v" none)).1.headD emptyReplica) "k" = true :=
  c4_invariant_amended chain2 "k" (.setReq "k" "v" none) (by decide) _
    (List.mem_cons_self _ _)

/-- A failure-free SET over a non-empty chain acknowledges OK. -/
theorem setFwd_ok_resp (key val : String) (ver : Nat) :
    ∀ l : List ReplicaState, l ≠ [] → (setFwd key val ver [] l).2 = some okResponse
  | [], h => absurd rfl h
  | [_], _ => rfl
  | st :: b :: rest, _ => by
    rw [setFwd_cons_cons_ok key val ver [] st b rest rfl]

/-- A non-empty cons list has a last element. -/
theorem getLast?_cons_some {α : Type} : ∀ (b : α) (l : List α), ∃ a, (b :: l).getLast? = some a
  | b, [] => ⟨b, rfl⟩
  | b, c :: l => by
    obtain ⟨a, ha⟩ := getLast?_cons_some c l
    exact ⟨a, by rw [List.getLast?_cons_cons, ha]⟩

/-- After a failure-free SET over a chain whose last replica held no dirty
entry for the key, every replica holds clean (ver, val) and no dirty
entry at ver. -/
theorem setFwd_store_mem (key val : String) (ver : Nat) :
    ∀ l : List ReplicaState, (∀ t ∈ l.getLast?, t.temp_store key = []) →
      ∀ st' ∈ (setFwd key val ver [] l).1,
        st'.store key = some (ver, val) ∧ dlookup (st'.temp_store key) ver = none
  | [], _, st', h' => by simp [setFwd] at h'
  | [st], h, st', h' => by
    have htl : st.temp_store key = [] := h st (by simp)
    simp only [setFwd, List.mem_singleton] at h'
    subst h'
    exact ⟨storeSet_self _ _ _ _, by simp [htl, dlookup]⟩
  | st :: b :: rest, h, st', h' => by
    rw [setFwd_cons_cons_ok key val ver [] st b rest rfl] at h'
    have h2 : ∀ t ∈ (b :: rest).getLast?, t.temp_store key = [] := by
      intro t ht
      exact h t (by rwa [getLast?_cons_ne st (b :: rest) (by simp)])
    rcases List.mem_cons.mp h' with rfl | hmem
    · exact ⟨storeSet_self _ _ _ _, by simp [tempSet_self, dlookup_derase_self]⟩
    · exact setFwd_store_mem key val ver (b :: rest) h2 st' (by simpa using hmem)

/-- A GET anywhere on a chain in which every replica holds clean
(ver, v) and no dirty entry at ver answers OK v. -/
theorem getT_all_committed (key : String) (ver : Nat) (v : String) :
    ∀ l : List ReplicaState, l ≠ [] →
      (∀ st' ∈ l, st'.store key = some (ver, v) ∧ dlookup (st'.temp_store key) ver = none) →
      (getT key l).2 = okVal v
  | [], h, _ => absurd rfl h
  | st :: rest, _, hall => by
    obtain ⟨hstore, hdl⟩ := hall st (List.mem_cons_self _ _)
    by_cases htemp : st.temp_store key = []
    · simp [getT, htemp, cleanRead, hstore]
    · cases hrest : rest with
      | nil =>
        subst hrest
        simp [getT, htemp, queryT, cleanRead, hstore]
      | cons b rest2 =>
        subst hrest
        obtain ⟨t, ht⟩ := getLast?_cons_some b rest2
        have htmem : t ∈ b :: rest2 := getLast?_mem' (b :: rest2) t ht
        have htl := (hall t (List.mem_cons_of_mem _ htmem)).1
        have hq : (queryT key (b :: rest2)).2 = some ver := by
          rw [queryT_snd key (b :: rest2) (by simp), ht]
          simp [htl]
        simp only [getT, if_neg htemp, hq, hdl]
        simp [cleanRead, hstore]

/-- C7: round trip — a SET that propagates with no forward failure
acknowledges OK, and a subsequent GET served at any replica of the chain
returns the written value (the tail's dirty map is empty beforehand, as
it always is). -/
theorem c7_round_trip (chain : List ReplicaState) (key val : String)
    (h1 : chain ≠ []) (h2 : ∀ t ∈ chain.getLast?, t.temp_store key = []) :
    (handleSet key val none [] chain).2 = some okResponse ∧
    ∀ i, i < chain.length →
      (getT key ((handleSet key val none [] chain).1.drop i)).2 = okVal val := by
  cases chain with
  | nil => exact absurd rfl h1
  | cons st rest =>
    have hresp : (setFwd key val (currentVersion st key + 1) [] (st :: rest)).2
        = some okResponse :=
      setFwd_ok_resp key val (currentVersion st key + 1) (st :: rest) (by simp)
    have hmem := setFwd_store_mem key val (currentVersion st key + 1) (st :: rest) h2
    refine ⟨hresp, ?_⟩
    intro i hi
    have hlen : ((setFwd key val (currentVersion st key + 1) [] (st :: rest)).1).length
        = (st :: rest).length :=
      setFwd_length key val (currentVersion st key + 1) [] (st :: rest)
    have hne : (setFwd key val (currentVersion st key + 1) [] (st :: rest)).1.drop i ≠ [] := by
      intro hnil
      have hlen2 := congrArg List.length hnil
      rw [List.length_drop, hlen] at hlen2
      simp only [List.length_nil] at hlen2
      omega
    refine getT_all_committed key (currentVersion st key + 1) val _ hne ?_
    intro st' hst'
    exact hmem st' (List.drop_subset i _ hst')

/-- Witness for C7 on the fresh two-replica chain, reading at the tail. -/
theorem c7_witness :
    (handleSet "k" "v" none [] chain2).2 = some okResponse ∧
    (getT "k" ((handleSet "k" "v" none [] chain2).1.drop 1)).2 = okVal "v" :=
  ⟨(c7_round_trip chain2 "k" "v" (by simp [chain2])
      (by intro t ht; simp [chain2] at ht; subst ht; rfl)).1,
   (c7_round_trip chain2 "k" "v" (by simp [chain2])
      (by intro t ht; simp [chain2] at ht; subst ht; rfl)).2 1 (by simp [chain2])⟩

/-- The chosen index is inside the list. -/
theorem argminFirst_lt : ∀ l : List ℚ, l ≠ [] → argminFirst l < l.length
  | [], h => absurd rfl h
  | [_], _ => by simp [argminFirst]
  | v :: b :: rest, _ => by
    simp only [argminFirst]
    by_cases hc : (b :: rest).getD (argminFirst (b :: rest)) 0 < v
    · rw [if_pos hc]
      have hlt := argminFirst_lt (b :: rest) (by simp)
      simpa using Nat.succ_lt_succ hlt
    · rw [if_neg hc]
      simp

/-- The chosen index holds a minimal response-time estimate. -/
theorem argminFirst_le : ∀ (l : List ℚ) (j : Nat), j < l.length →
    l.getD (argminFirst l) 0 ≤ l.getD j 0
  | [], j, h => by simp at h
  | [v], j, h => by
    have hj : j = 0 := by
      simpa using Nat.lt_one_iff.mp (by simpa using h)
    subst hj
    simp [argminFirst]
  | v :: b :: rest, j, h => by
    simp only [argminFirst]
    by_cases hc : (b :: rest).getD (argminFirst (b :: rest)) 0 < v
    · rw [if_pos hc]
      cases j with
      | zero => simpa using le_of_lt hc
      | succ j' =>
        have hj' : j' < (b :: rest).length := by
          simpa using Nat.lt_of_succ_lt_succ (by simpa using h)
        simpa using argminFirst_le (b :: rest) j' hj'
    · rw [if_neg hc]
      cases j with
      | zero => simp
      | succ j' =>
        have hj' : j' < (b :: rest).length := by
          simpa using Nat.lt_of_succ_lt_succ (by simpa using h)
        have hv : v ≤ (b :: rest).getD (argminFirst (b :: rest)) 0 := not_lt.mp hc
        simpa using le_trans hv (argminFirst_le (b :: rest) j' hj')

/-- Ties go to the earlier index: every index before the chosen one holds
a strictly larger estimate. -/
theorem argminFirst_first : ∀ (l : List ℚ) (j : Nat), j < argminFirst l →
    l.getD (argminFirst l) 0 < l.getD j 0
  | [], j, h => by simp [argminFirst] at h
  | [v], j, h => by simp [argminFirst] at h
  | v :: b :: rest, j, h => by
    simp only [argminFirst] at h ⊢
    by_cases hc : (b :: rest).getD (argminFirst (b :: rest)) 0 < v
    · rw [if_pos hc] at h ⊢
      cases j with
      | zero => simpa using hc
      | succ j' =>
        have hj' : j' < argminFirst (b :: rest) := Nat.lt_of_succ_lt_succ h
        simpa using argminFirst_first (b :: rest) j' hj'
    · rw [if_neg hc] at h
      exact absurd h (Nat.not_lt_zero j)

/-- Every slot of the initial estimates is 0. -/
theorem responseTimes_getD : ∀ (n j : Nat), j < n → (responseTimes n).getD j 1 = 0
  | 0, j, h => by simp at h
  | n + 1, 0, _ => by simp [responseTimes, List.replicate]
  | n + 1, j + 1, h => by
    simpa [responseTimes, List.replicate] using
      responseTimes_getD n j (Nat.lt_of_succ_lt_succ h)

/-- C8: the client sends each read to the replica with the lowest
recorded estimate, ties broken by iteration order; estimates start at 0;
after the read the chosen slot becomes 0.3·sample + 0.7·previous.
Response times are exact rationals here, idealizing the Python floats. -/
theorem c8_client_ewma (times : List ℚ) (sample : ℚ) (h : times ≠ []) :
    (clientGet times sample).1 < times.length ∧
    (∀ j, j < times.length →
       times.getD (clientGet times sample).1 0 ≤ times.getD j 0) ∧
    (∀ j, j < (clientGet times sample).1 →
       times.getD (clientGet times sample).1 0 < times.getD j 0) ∧
    (clientGet times sample).2
      = times.set (clientGet times sample).1
          (3 / 10 * sample + 7 / 10 * times.getD (clientGet times sample).1 0) ∧
    (∀ n j, j < n → (responseTimes n).getD j 1 = 0) := by
  refine ⟨argminFirst_lt times h, fun j hj => argminFirst_le times j hj,
    fun j hj => argminFirst_first times j hj, ?_, responseTimes_getD⟩
  show times.set (argminFirst times) (ewma sample (times.getD (argminFirst times) 0)) = _
  congr 1
  rw [ewma]
  show sample * (3 / 10) + times.getD (argminFirst times) 0 * (7 / 10)
      = 3 / 10 * sample + 7 / 10 * times.getD (argminFirst times) 0
  ring

/-- Witness for C8 at two fresh replicas. -/
theorem c8_witness : (clientGet [0, 0] 1).1 < ([0, 0] : List ℚ).length :=
  (c8_client_ewma [0, 0] 1 (by simp)).1

end Craq
